import Mathlib

/-!
Shallow embedding of `src/shannon/discrete.py` (module `shannon.discrete`).

Modelling conventions:
* Python symbols become elements of an arbitrary type with decidable equality.
* Python floats are idealised: the probability layer (frequency counts over
  `N`, the tolerance comparisons) is carried out exactly in `ℚ`; the entropy
  values, which involve `log2`, live in `ℝ`.  Float `NaN` has no counterpart
  in `ℝ`; where the Python code would produce `NaN` (e.g. `log2` of a
  negative number) the real-valued model produces a junk real value.  None of
  the claims below depend on the numeric value at such inputs, only on
  whether an exception is raised, and the exception control flow is embedded
  exactly.
* Each `raise` site of the source gets one constructor of `Err`; a fallible
  Python function becomes a Lean function into `Except Err _`.
* `collections.Counter` iterates in first-insertion order; the embedding
  uses `List.dedup` (which may order the distinct symbols differently).  The
  source itself documents that the distribution is "in random order" and
  every downstream use is order-independent, so this difference is
  immaterial; all order-sensitive statements proved below are about
  quantities invariant under permutation of the distribution.
-/

namespace Shannon

/-- The Python exceptions raised by `discrete.py`, one constructor per
`raise` site (plus the `IndexError` that `chain[0] = mi(X[0], y)` triggers on
an empty `X`). -/
inductive Err where
  /-- Raised by `entropy`: "requires either 'prob' or 'data' to be defined" (ValueError). -/
  | entropyNeitherGiven
  /-- Raised by `entropy`: "requires only 'prob' or 'data to be given but not both" (ValueError). -/
  | entropyBothGiven
  /-- Raised by `entropy`: "needs 'prob' to be an ndarray" (TypeError). -/
  | entropyProbNotNdarray
  /-- Raised by `entropy`: "parameter 'prob' ... should sum to 1" (ValueError). -/
  | entropyProbSumNot1
  /-- Raised by `combine_symbols`: "combine_symbols got inputs with different sizes" (ValueError). -/
  | combineSizeMismatch
  /-- Raised as `IndexError` from `chain[0]` when `len(X) == 0` in `mi_chain_rule`. -/
  | indexError
deriving DecidableEq, Repr

/-- The spec's error taxonomy maps its `InvalidInputError` onto the two
mutual-exclusivity `ValueError`s of `entropy`. -/
def Err.isInvalidInputError : Err → Bool
  | .entropyNeitherGiven => true
  | .entropyBothGiven => true
  | _ => false

/-- Returns `true` on a result that is an `InvalidInputError`, `false` on any other
error and on a successful result. -/
def resultIsInvalidInputError {α : Type _} : Except Err α → Bool
  | .error e => e.isInvalidInputError
  | .ok _ => false

/-- Returns `true` iff the computation returned a value rather than raising. -/
def resultIsOk {α : Type _} : Except Err α → Bool
  | .ok _ => true
  | .error _ => false

/-- The `prob` argument of `entropy` as a Python runtime object: the payload
of numbers together with whether the object is a `numpy.ndarray` (the code
checks `isinstance(prob, np.ndarray)`). -/
structure PyArray where
  isNdarray : Bool
  values : List ℚ
deriving DecidableEq, Repr

/-- Embeds `symbols_to_prob(symbols)`: `Counter(symbols).values()` lists the count
of each distinct symbol; `N = float(sum(asList))`; the result is
`[n / N for n in asList]`.  On empty input the count list is empty, so the
comprehension runs zero times and no division by `N = 0` ever happens: the
function returns an empty array. -/
def symbols_to_prob {α : Type _} [DecidableEq α] (symbols : List α) : List ℚ :=
  let asList := symbols.dedup.map (fun s => symbols.count s)
  let N : ℚ := ((asList.sum : ℕ) : ℚ)
  asList.map (fun (n : ℕ) => (n : ℚ) / N)

/-- Embeds `np.log2` on a rational probability entry.  (`Real.logb 2` of a
nonpositive number is a junk value where the float code would give `-inf`
at `0` and `NaN` below `0`; the `-inf` case is patched out explicitly in
`adjLogProb`, matching `logProb[logProb==-np.inf] = 0`.) -/
noncomputable def log2q (q : ℚ) : ℝ := Real.logb 2 (q : ℝ)

/-- One entry of `logProb` after the patch `logProb[logProb==-np.inf] = 0`:
`np.log2 p` is `-inf` exactly when `p = 0` (for the nonnegative entries a
distribution holds), so the patched entry is `0` at `p = 0` and `log2 p`
elsewhere. -/
noncomputable def adjLogProb (q : ℚ) : ℝ := if q = 0 then 0 else log2q q

/-- Embeds `np.dot` of two equal-length vectors. -/
noncomputable def npDot (a b : List ℝ) : ℝ := (List.zipWith (· * ·) a b).sum

/-- The numeric part of `entropy` once a distribution `prob` is in hand:
`logProb = np.log2(prob); logProb[logProb==-np.inf] = 0;
return -1.0 * np.dot(prob, logProb)`. -/
noncomputable def entropyVal (prob : List ℚ) : ℝ :=
  -1 * npDot (prob.map (fun (q : ℚ) => (q : ℝ))) (prob.map adjLogProb)

/-- The default `errorVal=1e-5` of `entropy`. -/
def defaultErrorVal : ℚ := 1 / 100000

/-- Embeds `entropy(data=None, prob=None, errorVal=1e-5)`.  The checks run in the
source's order: neither given, both given, `prob` not an ndarray, `prob`
not summing to 1 within `errorVal` (the last two only when `prob` is
given); then the distribution (estimated from `data` when `data` is given)
is fed to the log-sum. -/
noncomputable def entropy {α : Type _} [DecidableEq α]
    (data : Option (List α)) (prob : Option PyArray) (errorVal : ℚ) :
    Except Err ℝ :=
  match data, prob with
  | none, none => .error .entropyNeitherGiven
  | some _, some _ => .error .entropyBothGiven
  | none, some p =>
    if p.isNdarray = false then .error .entropyProbNotNdarray
    else if |p.values.sum - 1| > errorVal then .error .entropyProbSumNot1
    else .ok (entropyVal p.values)
  | some d, none => .ok (entropyVal (symbols_to_prob d))

/-- Heads and tails of a list of lists: `some (heads, tails)` when every
list is nonempty, `none` when some list is exhausted (a `zip` iterator
stops there).  The empty collection yields `some ([], [])`, so `zip()` with
no arguments still terminates immediately via `pyZip`'s base case. -/
def headsTails {α : Type _} : List (List α) → Option (List α × List (List α))
  | [] => some ([], [])
  | [] :: _ => none
  | (x :: xs) :: rest =>
    match headsTails rest with
    | some (hs, ts) => some (x :: hs, xs :: ts)
    | none => none

/-- Embeds `zip(first, *rest)` for homogeneous sequences, with the Python tuple at
index `i` modelled as the list of the `i`-th elements; truncates at the
shortest input. -/
def pyZipAux {α : Type _} : List α → List (List α) → List (List α)
  | [], _ => []
  | x :: xs, rest =>
    match headsTails rest with
    | some (hs, ts) => (x :: hs) :: pyZipAux xs ts
    | none => []

/-- Embeds `tuple(zip(*args))` for a homogeneous collection of sequences. -/
def pyZip {α : Type _} : List (List α) → List (List α)
  | [] => []
  | a :: rest => pyZipAux a rest

/-- Embeds `combine_symbols(*args)` at a homogeneous call site: raise unless every
`len(arg)` equals `len(args[0])`, then return `tuple(zip(*args))`.  (When
`args` is empty the loop body never runs, so `args[0]` is never evaluated.) -/
def combine_symbols {α : Type _} (args : List (List α)) : Except Err (List (List α)) :=
  if args.any (fun arg => arg.length ≠ (args.headD []).length) then
    .error .combineSizeMismatch
  else .ok (pyZip args)

/-- Embeds `combine_symbols(x, z)` as called inside `cond_mi`: the two sequences
may hold symbols of different Python types, so the variadic source function
is instantiated at arity 2 with a pair for the 2-tuple.  The length check is
the same loop (`len(x) != len(x)` is vacuous; `len(z) != len(x)` raises),
and the result is `tuple(zip(x, z))`. -/
def combine_symbols2 {α γ : Type _} (x : List α) (z : List γ) :
    Except Err (List (α × γ)) :=
  if z.length ≠ x.length then .error .combineSizeMismatch
  else .ok (x.zip z)

/-- Embeds `combine_symbols(x, y, z)` as called inside `cond_mi`, instantiated at
arity 3 with a nested pair for the 3-tuple. -/
def combine_symbols3 {α β γ : Type _} (x : List α) (y : List β) (z : List γ) :
    Except Err (List (α × β × γ)) :=
  if y.length ≠ x.length ∨ z.length ≠ x.length then .error .combineSizeMismatch
  else .ok (x.zip (y.zip z))

/-- Embeds `mi(x, y)`: estimate `probX`, `probY` and `probXY` (the latter over
`zip(x, y)`, which Python truncates at the shorter sequence — `List.zip`
does the same), then evaluate
`entropy(prob=probX) + entropy(prob=probY) - entropy(prob=probXY)` left to
right, each call with default `errorVal`; the first exception propagates.
(The `isinstance(x, zip)` conversions at the top are no-ops on lists.)
First, the evaluation of the fallible three-term expression: -/
noncomputable def miCombine (a b c : Except Err ℝ) : Except Err ℝ :=
  match a with
  | .error e => .error e
  | .ok hX =>
    match b with
    | .error e => .error e
    | .ok hY =>
      match c with
      | .error e => .error e
      | .ok hXY => .ok (hX + hY - hXY)

noncomputable def mi {α β : Type _} [DecidableEq α] [DecidableEq β]
    (x : List α) (y : List β) : Except Err ℝ :=
  miCombine
    (entropy (none : Option (List Unit)) (some ⟨true, symbols_to_prob x⟩) defaultErrorVal)
    (entropy (none : Option (List Unit)) (some ⟨true, symbols_to_prob y⟩) defaultErrorVal)
    (entropy (none : Option (List Unit)) (some ⟨true, symbols_to_prob (x.zip y)⟩)
      defaultErrorVal)

/-- Left-to-right evaluation of `a + b - c - d` over fallible summands. -/
noncomputable def condMiCombine (a b c d : Except Err ℝ) : Except Err ℝ :=
  match a with
  | .error e => .error e
  | .ok hXZ =>
    match b with
    | .error e => .error e
    | .ok hYZ =>
      match c with
      | .error e => .error e
      | .ok hXYZ =>
        match d with
        | .error e => .error e
        | .ok hZ => .ok (hXZ + hYZ - hXYZ - hZ)

/-- The body of `cond_mi` once the three combination results are in hand:
the first combination exception propagates; otherwise the four entropies
are evaluated. -/
noncomputable def condMiBody {α β γ : Type _} [DecidableEq α] [DecidableEq β] [DecidableEq γ]
    (z : List γ) (cxz : Except Err (List (α × γ))) (cyz : Except Err (List (β × γ)))
    (cxyz : Except Err (List (α × β × γ))) : Except Err ℝ :=
  match cxz with
  | .error e => .error e
  | .ok xz =>
    match cyz with
    | .error e => .error e
    | .ok yz =>
      match cxyz with
      | .error e => .error e
      | .ok xyz =>
        condMiCombine
          (entropy (none : Option (List Unit)) (some ⟨true, symbols_to_prob xz⟩)
            defaultErrorVal)
          (entropy (none : Option (List Unit)) (some ⟨true, symbols_to_prob yz⟩)
            defaultErrorVal)
          (entropy (none : Option (List Unit)) (some ⟨true, symbols_to_prob xyz⟩)
            defaultErrorVal)
          (entropy (none : Option (List Unit)) (some ⟨true, symbols_to_prob z⟩)
            defaultErrorVal)

/-- Embeds `cond_mi(x, y, z)`: combine `(x,z)`, `(y,z)`, `(x,y,z)` (each combine
may raise, in that order), estimate the four distributions, then evaluate
`entropy(probXZ) + entropy(probYZ) - entropy(probXYZ) - entropy(probZ)`
left to right. -/
noncomputable def cond_mi {α β γ : Type _} [DecidableEq α] [DecidableEq β] [DecidableEq γ]
    (x : List α) (y : List β) (z : List γ) : Except Err ℝ :=
  condMiBody z (combine_symbols2 x z) (combine_symbols2 y z) (combine_symbols3 x y z)

/-- Prepend a fallible term to a fallible list of terms, the term's
exception taking precedence (the loop body `chain[i] = cond_mi(...)` raises
before any later iteration runs). -/
noncomputable def exCons (t : Except Err ℝ) (ts : Except Err (List ℝ)) :
    Except Err (List ℝ) :=
  match t with
  | .error e => .error e
  | .ok v =>
    match ts with
    | .error e => .error e
    | .ok vs => .ok (v :: vs)

/-- The loop `for i in range(1, len(X)): chain[i] = cond_mi(X[i], y, X[:i])`
over an explicit list of indices; the first exception propagates.  Note the
source passes the *slice* `X[:i]` itself as the conditioning argument `z`
(a list of `i` sequences), not the element-wise combination of those
sequences. -/
noncomputable def chainTerms {α β : Type _} [DecidableEq α] [DecidableEq β]
    (X : List (List α)) (y : List β) : List ℕ → Except Err (List ℝ)
  | [] => .ok []
  | i :: is => exCons (cond_mi (X.getD i []) y (X.take i)) (chainTerms X y is)

/-- Embeds `mi_chain_rule(X, y)`: `chain[0] = mi(X[0], y)` (an `IndexError` when
`X` is empty), then the loop over `i in range(1, len(X))`. -/
noncomputable def mi_chain_rule {α β : Type _} [DecidableEq α] [DecidableEq β]
    (X : List (List α)) (y : List β) : Except Err (List ℝ) :=
  match X with
  | [] => .error .indexError
  | x0 :: xs => exCons (mi x0 y) (chainTerms (x0 :: xs) y (List.range' 1 xs.length))

/-! ### Basic lemmas about the embedding -/

theorem symbols_to_prob_nil {α : Type _} [DecidableEq α] :
    symbols_to_prob ([] : List α) = [] := rfl

theorem sum_symbols_to_prob {α : Type _} [DecidableEq α] (l : List α) (h : l ≠ []) :
    (symbols_to_prob l).sum = 1 := by
  unfold symbols_to_prob
  have hlen : ((l.dedup.map fun s => l.count s).sum) = l.length :=
    List.sum_map_count_dedup_eq_length l
  have hN : (((l.dedup.map fun s => l.count s).sum : ℕ) : ℚ) ≠ 0 := by
    rw [hlen]
    exact_mod_cast (List.length_pos.mpr h).ne'
  simp only [div_eq_mul_inv]
  rw [List.sum_map_mul_right (f := fun (n : ℕ) => (n : ℚ)), ← Nat.cast_list_sum]
  exact mul_inv_cancel₀ hN

theorem npDot_map (f g : ℚ → ℝ) (p : List ℚ) :
    npDot (p.map f) (p.map g) = (p.map fun q => f q * g q).sum := by
  induction p with
  | nil => rfl
  | cons a t ih =>
    simp only [List.map_cons, npDot, List.zipWith_cons_cons, List.sum_cons]
    simp only [npDot] at ih
    rw [ih]

theorem entropyVal_eq (p : List ℚ) :
    entropyVal p = -1 * (p.map fun (q : ℚ) => (q : ℝ) * adjLogProb q).sum := by
  unfold entropyVal
  rw [npDot_map]

theorem entropyVal_nil : entropyVal [] = 0 := by
  simp [entropyVal, npDot]

theorem entropyVal_one : entropyVal [1] = 0 := by
  simp [entropyVal_eq, adjLogProb, log2q]

theorem entropy_prob_ok {δ : Type _} [DecidableEq δ] (p : List ℚ) (ev : ℚ)
    (h : |p.sum - 1| ≤ ev) :
    entropy (none : Option (List δ)) (some ⟨true, p⟩) ev = .ok (entropyVal p) := by
  have h' : ¬ (|p.sum - 1| > ev) := not_lt.mpr h
  simp [entropy, h']

theorem entropy_prob_sum_bad {δ : Type _} [DecidableEq δ] (p : List ℚ) (ev : ℚ)
    (h : |p.sum - 1| > ev) :
    entropy (none : Option (List δ)) (some ⟨true, p⟩) ev = .error .entropyProbSumNot1 := by
  simp [entropy, h]

theorem entropy_stp_ok {δ α : Type _} [DecidableEq δ] [DecidableEq α] (l : List α)
    (h : l ≠ []) :
    entropy (none : Option (List δ)) (some ⟨true, symbols_to_prob l⟩) defaultErrorVal
      = .ok (entropyVal (symbols_to_prob l)) := by
  apply entropy_prob_ok
  rw [sum_symbols_to_prob l h]
  simp [defaultErrorVal]

theorem entropy_stp_nil {δ α : Type _} [DecidableEq δ] [DecidableEq α] :
    entropy (none : Option (List δ)) (some ⟨true, symbols_to_prob ([] : List α)⟩)
      defaultErrorVal = .error .entropyProbSumNot1 := by
  apply entropy_prob_sum_bad
  simp [symbols_to_prob_nil, defaultErrorVal]
  norm_num

theorem entropy_data_ok {α : Type _} [DecidableEq α] (d : List α) (ev : ℚ) :
    entropy (some d) none ev = .ok (entropyVal (symbols_to_prob d)) := rfl

theorem zip_ne_nil {α β : Type _} (x : List α) (y : List β) (hx : x ≠ []) (hy : y ≠ []) :
    x.zip y ≠ [] := by
  have : 0 < (x.zip y).length := by
    rw [List.length_zip]
    exact lt_min (List.length_pos.mpr hx) (List.length_pos.mpr hy)
  exact List.length_pos.mp this

theorem miCombine_err1 (e : Err) (b c : Except Err ℝ) :
    miCombine (.error e) b c = .error e := rfl

theorem miCombine_ok_err2 (a : ℝ) (e : Err) (c : Except Err ℝ) :
    miCombine (.ok a) (.error e) c = .error e := rfl

theorem miCombine_ok3 (a b c : ℝ) :
    miCombine (.ok a) (.ok b) (.ok c) = .ok (a + b - c) := rfl

theorem exCons_err1 (e : Err) (ts : Except Err (List ℝ)) :
    exCons (.error e) ts = .error e := rfl

theorem exCons_ok2 (v : ℝ) (vs : List ℝ) :
    exCons (.ok v) (.ok vs) = .ok (v :: vs) := rfl

theorem exCons_ok_err2 (v : ℝ) (e : Err) : exCons (.ok v) (.error e) = .error e := rfl

theorem condMiBody_err1 {α β γ : Type _} [DecidableEq α] [DecidableEq β] [DecidableEq γ]
    (z : List γ) (e : Err) (cyz : Except Err (List (β × γ)))
    (cxyz : Except Err (List (α × β × γ))) :
    condMiBody z (.error e) cyz cxyz = .error e := rfl

/-- Applying `mi` on two nonempty sequences never raises: all three estimated
distributions sum to 1 exactly. -/
theorem mi_ok {α β : Type _} [DecidableEq α] [DecidableEq β]
    (x : List α) (y : List β) (hx : x ≠ []) (hy : y ≠ []) :
    mi x y = .ok (entropyVal (symbols_to_prob x) + entropyVal (symbols_to_prob y)
      - entropyVal (symbols_to_prob (x.zip y))) := by
  unfold mi
  rw [entropy_stp_ok x hx, entropy_stp_ok y hy, entropy_stp_ok _ (zip_ne_nil x y hx hy),
    miCombine_ok3]

theorem mi_chain_rule_cons {α β : Type _} [DecidableEq α] [DecidableEq β]
    (x0 : List α) (xs : List (List α)) (y : List β) :
    mi_chain_rule (x0 :: xs) y =
      exCons (mi x0 y) (chainTerms (x0 :: xs) y (List.range' 1 xs.length)) := rfl

theorem chainTerms_cons {α β : Type _} [DecidableEq α] [DecidableEq β]
    (X : List (List α)) (y : List β) (i : ℕ) (is : List ℕ) :
    chainTerms X y (i :: is) =
      exCons (cond_mi (X.getD i []) y (X.take i)) (chainTerms X y is) := rfl

theorem cond_mi_combine2_err {α β γ : Type _} [DecidableEq α] [DecidableEq β] [DecidableEq γ]
    (x : List α) (y : List β) (z : List γ) (h : z.length ≠ x.length) :
    cond_mi x y z = .error .combineSizeMismatch := by
  unfold cond_mi
  rw [show combine_symbols2 x z = .error .combineSizeMismatch from by
    simp [combine_symbols2, h], condMiBody_err1]

theorem dedup_map_of_injective {α β : Type _} [DecidableEq α] [DecidableEq β]
    (f : α → β) (hf : Function.Injective f) (l : List α) :
    (l.map f).dedup = l.dedup.map f := by
  induction l with
  | nil => rfl
  | cons a t ih =>
    by_cases h : a ∈ t
    · rw [List.map_cons, List.dedup_cons_of_mem (List.mem_map_of_mem f h),
        List.dedup_cons_of_mem h, ih]
    · rw [List.map_cons, List.dedup_cons_of_not_mem, List.dedup_cons_of_not_mem h,
        List.map_cons, ih]
      intro hmem
      obtain ⟨b, hb, hba⟩ := List.mem_map.mp hmem
      exact h (hf hba ▸ hb)

theorem symbols_to_prob_map_of_injective {α β : Type _} [DecidableEq α] [DecidableEq β]
    (f : α → β) (hf : Function.Injective f) (l : List α) :
    symbols_to_prob (l.map f) = symbols_to_prob l := by
  have hc : List.map (fun s => (List.map f l).count s) (List.map f l.dedup)
      = List.map (fun a => l.count a) l.dedup := by
    rw [List.map_map]
    exact List.map_congr_left (fun a _ => List.count_map_of_injective l f hf a)
  simp only [symbols_to_prob]
  rw [dedup_map_of_injective f hf, hc]

theorem symbols_to_prob_replicate {α : Type _} [DecidableEq α] (n : ℕ) (a : α)
    (h : n ≠ 0) : symbols_to_prob (List.replicate n a) = [1] := by
  have hd : (List.replicate n a).dedup = [a] := by
    induction n with
    | zero => exact absurd rfl h
    | succ k ih =>
      rcases Nat.eq_zero_or_pos k with hk | hk
      · subst hk; rfl
      · rw [List.replicate_succ, List.dedup_cons_of_mem
          (List.mem_replicate.mpr ⟨hk.ne', rfl⟩), ih hk.ne']
  unfold symbols_to_prob
  rw [hd]
  simp [List.count_replicate_self, div_self (by exact_mod_cast h : ((n : ℚ) ≠ 0))]

theorem headsTails_eq {α : Type _} (d : α) (rest : List (List α)) (h : ∀ r ∈ rest, r ≠ []) :
    headsTails rest = some (rest.map (fun r => r.headD d), rest.map List.tail) := by
  induction rest with
  | nil => rfl
  | cons r rs ih =>
    obtain ⟨hr, tr, rfl⟩ : ∃ hr tr, r = hr :: tr := by
      cases r with
      | nil => exact absurd rfl (h _ (by simp))
      | cons a b => exact ⟨a, b, rfl⟩
    have := ih (fun r hr' => h r (List.mem_cons_of_mem _ hr'))
    simp only [headsTails, this, List.map_cons, List.headD_cons, List.tail_cons]

theorem getD_tail {α : Type _} (r : List α) (i : ℕ) (d : α) :
    r.tail.getD i d = r.getD (i + 1) d := by
  cases r with
  | nil => rfl
  | cons a t => rfl

/-- On equal-length inputs `pyZipAux` is the transpose: row `i` collects the
`i`-th element of the first sequence and of each remaining sequence. -/
theorem pyZipAux_eq {α : Type _} (d : α) : ∀ (a : List α) (rest : List (List α)),
    (∀ r ∈ rest, r.length = a.length) →
    pyZipAux a rest =
      (List.range a.length).map (fun i => (a :: rest).map (fun l => l.getD i d)) := by
  intro a
  induction a with
  | nil => intro rest _; rfl
  | cons x xs ih =>
    intro rest h
    have hne : ∀ r ∈ rest, r ≠ [] := by
      intro r hr hnil
      have := h r hr
      rw [hnil] at this
      simp at this
    have hstep : pyZipAux (x :: xs) rest =
        (x :: rest.map (fun r => r.headD d)) :: pyZipAux xs (rest.map List.tail) := by
      simp only [pyZipAux, headsTails_eq d rest hne]
    have htails : ∀ r ∈ rest.map List.tail, r.length = xs.length := by
      intro r hr
      obtain ⟨r₀, hr₀, rfl⟩ := List.mem_map.mp hr
      have h₀ := h r₀ hr₀
      simp only [List.length_tail, h₀, List.length_cons, Nat.add_sub_cancel]
    rw [hstep, ih (rest.map List.tail) htails, List.length_cons, List.range_succ_eq_map]
    simp only [List.map_cons, List.map_map]
    congr 1
    · congr 1
      exact List.map_congr_left fun r _ => by cases r <;> rfl
    · apply List.map_congr_left
      intro i _
      simp only [Function.comp]
      congr 1
      exact List.map_congr_left fun r _ => getD_tail r i d

theorem pyZip_eq {α : Type _} (d : α) (a : List α) (rest : List (List α))
    (h : ∀ r ∈ rest, r.length = a.length) :
    pyZip (a :: rest) =
      (List.range a.length).map (fun i => (a :: rest).map (fun l => l.getD i d)) :=
  pyZipAux_eq d a rest h

theorem getD_range_map {β : Type _} (f : ℕ → β) (n i : ℕ) (d' : β) (h : i < n) :
    ((List.range n).map f).getD i d' = f i := by
  have hlen : i < ((List.range n).map f).length := by simpa using h
  rw [List.getD_eq_getElem _ _ hlen]
  simp

theorem entropyVal_cons (a : ℚ) (t : List ℚ) :
    entropyVal (a :: t) = -((a : ℝ) * adjLogProb a) + entropyVal t := by
  rw [entropyVal_eq, entropyVal_eq, List.map_cons, List.sum_cons]
  ring

/-- Entries equal to `0` contribute nothing to the entropy sum: dropping
them does not change the value. -/
theorem entropyVal_filter_ne_zero (p : List ℚ) :
    entropyVal (p.filter (fun q => q != 0)) = entropyVal p := by
  induction p with
  | nil => rfl
  | cons a t ih =>
    by_cases ha : a = 0
    · subst ha
      rw [List.filter_cons_of_neg (by simp), ih, entropyVal_cons]
      simp
    · rw [List.filter_cons_of_pos (by simpa using ha), entropyVal_cons, ih, entropyVal_cons]

theorem mi_nil_left {α β : Type _} [DecidableEq α] [DecidableEq β] (y : List β) :
    mi ([] : List α) y = .error .entropyProbSumNot1 := by
  unfold mi
  rw [entropy_stp_nil, miCombine_err1]

theorem mi_nil_right {α β : Type _} [DecidableEq α] [DecidableEq β] (x : List α) :
    mi x ([] : List β) = .error .entropyProbSumNot1 := by
  by_cases hx : x = []
  · subst hx; exact mi_nil_left []
  · unfold mi
    rw [entropy_stp_ok x hx, entropy_stp_nil, miCombine_ok_err2]

/-! ### Claim theorems -/

/-- C1 (code bug): the claim — and the source's own docstring, which states
`I(X; y) = I(x0; y) + I(x1; y | x0) + ...` — requires term `i` of
`mi_chain_rule(X, y)` to condition on the element-wise combination of
`X[0..i-1]`.  The code instead passes the raw slice `X[:i]` (a list of `i`
whole sequences) as `z`, so inside `cond_mi` the call
`combine_symbols(X[i], X[:i])` compares `len(X[:i]) = i` with
`len(X[i]) = N` and raises ValueError on well-formed input.  This theorem
evaluates the code at two length-4 sequences and a length-4 target: the
chain-rule call raises instead of returning the two chain-rule terms. -/
theorem mi_chain_rule_uncombined_prefix_raises :
    mi_chain_rule [[0,0,1,1],[0,1,0,1]] ([0,1,1,0] : List ℕ)
      = .error .combineSizeMismatch := by
  rw [mi_chain_rule_cons, mi_ok _ _ (by simp) (by simp)]
  rw [show List.range' 1 (([[0,1,0,1]] : List (List ℕ))).length = [1] from rfl]
  rw [chainTerms_cons, cond_mi_combine2_err _ _ _ (by simp), exCons_err1, exCons_ok_err2]

/-- C2 (counterexample): `X = [[0,1,2]]` and `y = [0,1]` have different
lengths (3 vs 2), yet `mi_chain_rule` returns a value — no
LengthMismatchError is raised, refuting the claim. -/
theorem mi_chain_rule_length_mismatch_returns_value :
    (([0,1,2] : List ℕ).length ≠ ([0,1] : List ℕ).length)
    ∧ resultIsOk (mi_chain_rule [[0,1,2]] ([0,1] : List ℕ)) = true := by
  refine ⟨by decide, ?_⟩
  rw [mi_chain_rule_cons, mi_ok _ _ (by simp) (by simp)]
  rw [show chainTerms [[0,1,2]] ([0,1] : List ℕ) (List.range' 1 ([] : List (List ℕ)).length)
      = .ok [] from rfl]
  rw [exCons_ok2]
  rfl

/-- C2 (amended): `mi_chain_rule` performs no length validation between
`X[0]` and `y`.  For a single-sequence `X` it always returns a value for
nonempty inputs — mismatched lengths included — computed over the
zip-truncated pairing; it never raises a LengthMismatchError there. -/
theorem mi_chain_rule_singleton_skips_length_check {α β : Type _}
    [DecidableEq α] [DecidableEq β] (x : List α) (y : List β)
    (hx : x ≠ []) (hy : y ≠ []) :
    mi_chain_rule [x] y = .ok [entropyVal (symbols_to_prob x)
      + entropyVal (symbols_to_prob y) - entropyVal (symbols_to_prob (x.zip y))] := by
  rw [mi_chain_rule_cons, mi_ok x y hx hy]
  rw [show chainTerms [x] y (List.range' 1 ([] : List (List α)).length) = .ok [] from rfl]
  rw [exCons_ok2]

/-- Witness for the amended C2 theorem at the mismatched-length input
`X = [[0,1,2]]`, `y = [0,1]`. -/
theorem mi_chain_rule_singleton_skips_length_check_witness :
    mi_chain_rule [[0,1,2]] ([0,1] : List ℕ)
      = .ok [entropyVal (symbols_to_prob [0,1,2])
        + entropyVal (symbols_to_prob ([0,1] : List ℕ))
        - entropyVal (symbols_to_prob (([0,1,2] : List ℕ).zip [0,1]))] :=
  mi_chain_rule_singleton_skips_length_check [0,1,2] [0,1] (by simp) (by simp)

/-- C3 (counterexample): `entropy(data=[])` returns a value; no
InvalidInputError (nor any other exception) is raised on empty input. -/
theorem entropy_empty_data_returns_value :
    resultIsOk (entropy (some ([] : List ℕ)) none defaultErrorVal) = true := by
  rw [entropy_data_ok]
  rfl

/-- C3 (amended): on the empty symbol sequence `symbols_to_prob` returns
the empty distribution without raising (the list comprehension over the
empty count list never divides by `N = 0`), and `entropy(data=[])` returns
0 for every `errorVal`. -/
theorem entropy_empty_data_returns_zero {α : Type _} [DecidableEq α] (ev : ℚ) :
    symbols_to_prob ([] : List α) = [] ∧ entropy (some ([] : List α)) none ev = .ok 0 := by
  refine ⟨rfl, ?_⟩
  rw [entropy_data_ok, symbols_to_prob_nil, entropyVal_nil]

/-- C4: `entropy` raises its mutual-exclusivity ValueError (the spec's
InvalidInputError) when neither or both of `data`/`prob` are supplied, and
both those errors are in the InvalidInputError class; when exactly one is
supplied the check never fires — the data-only call always returns a
value, and a prob-only call never produces an InvalidInputError-class
error. -/
theorem entropy_argument_mutual_exclusivity {α : Type _} [DecidableEq α]
    (d : List α) (p : PyArray) (ev : ℚ) :
    entropy (none : Option (List α)) none ev = .error .entropyNeitherGiven
    ∧ entropy (some d) (some p) ev = .error .entropyBothGiven
    ∧ Err.entropyNeitherGiven.isInvalidInputError = true
    ∧ Err.entropyBothGiven.isInvalidInputError = true
    ∧ entropy (some d) none ev = .ok (entropyVal (symbols_to_prob d))
    ∧ resultIsInvalidInputError (entropy (none : Option (List α)) (some p) ev) = false := by
  refine ⟨rfl, rfl, rfl, rfl, rfl, ?_⟩
  rcases p with ⟨nd, vals⟩
  cases nd
  · rfl
  · by_cases hsum : |vals.sum - 1| > ev
    · rw [entropy_prob_sum_bad vals ev hsum]
      rfl
    · rw [entropy_prob_ok vals ev (not_lt.mp hsum)]
      rfl

/-- C5 (counterexample): the distribution `[-1, 2]` has a negative entry,
yet `entropy` accepts it and returns a value — no
InvalidDistributionError, refuting the claim's negative-entry half. -/
theorem entropy_negative_entry_not_rejected :
    ((-1 : ℚ) < 0)
    ∧ entropy (none : Option (List Unit)) (some ⟨true, [-1, 2]⟩) defaultErrorVal
      = .ok (entropyVal [-1, 2]) :=
  ⟨by norm_num, entropy_prob_ok [-1, 2] defaultErrorVal (by norm_num [defaultErrorVal])⟩

/-- C5 (amended): for an ndarray distribution the only validation `entropy`
performs is the sum check — it raises the "should sum to 1" ValueError
(the spec's InvalidDistributionError) exactly when `|sum - 1| > errorVal`,
and otherwise proceeds to return a value; entries are never checked for
negativity. -/
theorem entropy_distribution_sum_validation (p : List ℚ) (ev : ℚ) :
    (|p.sum - 1| > ev →
      entropy (none : Option (List Unit)) (some ⟨true, p⟩) ev = .error .entropyProbSumNot1)
    ∧ (|p.sum - 1| ≤ ev →
      entropy (none : Option (List Unit)) (some ⟨true, p⟩) ev = .ok (entropyVal p)) :=
  ⟨entropy_prob_sum_bad p ev, entropy_prob_ok p ev⟩

/-- Witness for the C5 sum-validation theorem at the spec's own example, a
distribution summing to 0.8 under the default tolerance. -/
theorem entropy_distribution_sum_validation_witness :
    entropy (none : Option (List Unit)) (some ⟨true, [(4 : ℚ)/5]⟩) defaultErrorVal
      = .error .entropyProbSumNot1 :=
  (entropy_distribution_sum_validation [(4 : ℚ)/5] defaultErrorVal).1
    (by norm_num [defaultErrorVal, abs])

/-- C6: each zero entry of a valid distribution contributes exactly 0 to
the entropy sum (the code patches `log2(0) = -inf` to 0 before the dot
product): the result equals the entropy of the nonzero entries alone, a
plain (finite) real number — never the NaN or -inf that an unpatched
`0 * log2(0)` would produce. -/
theorem entropy_zero_entries_contribute_zero (p : List ℚ) (ev : ℚ)
    (h : |p.sum - 1| ≤ ev) :
    entropy (none : Option (List Unit)) (some ⟨true, p⟩) ev
      = .ok (entropyVal (p.filter (fun q => q != 0))) := by
  rw [entropy_prob_ok p ev h, entropyVal_filter_ne_zero]

/-- Witness for the C6 theorem at the distribution `[1, 0]`. -/
theorem entropy_zero_entries_contribute_zero_witness :
    entropy (none : Option (List Unit)) (some ⟨true, [1, 0]⟩) defaultErrorVal
      = .ok (entropyVal [1]) := by
  have h := entropy_zero_entries_contribute_zero [1, 0] defaultErrorVal
    (by norm_num [defaultErrorVal])
  rw [show ([1, 0] : List ℚ).filter (fun q => q != 0) = [1] from rfl] at h
  exact h

/-- C7: the entropy of the one-point distribution `[1.0]` is exactly 0,
and so is the entropy of data consisting of a single repeated symbol
(whose estimated distribution is `[1.0]`). -/
theorem entropy_one_point_distribution_zero {α : Type _} [DecidableEq α]
    (n : ℕ) (a : α) (ev : ℚ) (h : n ≠ 0) :
    entropy (none : Option (List Unit)) (some ⟨true, [1]⟩) defaultErrorVal = .ok 0
    ∧ entropy (some (List.replicate n a)) none ev = .ok 0 := by
  constructor
  · rw [entropy_prob_ok [1] defaultErrorVal (by norm_num [defaultErrorVal]), entropyVal_one]
  · rw [entropy_data_ok, symbols_to_prob_replicate n a h, entropyVal_one]

/-- Witness for the C7 theorem at four repetitions of the symbol `0`. -/
theorem entropy_one_point_distribution_zero_witness :
    entropy (none : Option (List Unit)) (some ⟨true, [1]⟩) defaultErrorVal = .ok 0
    ∧ entropy (some (List.replicate 4 (0 : ℕ))) none defaultErrorVal = .ok 0 :=
  entropy_one_point_distribution_zero 4 0 defaultErrorVal (by norm_num)

/-- C8: mutual information is symmetric — `mi x y = mi y x` for all symbol
sequences, exceptions included (the joint distribution over `zip(y, x)` is
the swap-image of the one over `zip(x, y)`, and entropy only depends on the
multiset of probabilities). -/
theorem mi_symmetric {α β : Type _} [DecidableEq α] [DecidableEq β]
    (x : List α) (y : List β) : mi x y = mi y x := by
  by_cases hx : x = []
  · subst hx; rw [mi_nil_left, mi_nil_right]
  · by_cases hy : y = []
    · subst hy; rw [mi_nil_right, mi_nil_left]
    · rw [mi_ok x y hx hy, mi_ok y x hy hx]
      have hz : symbols_to_prob (y.zip x) = symbols_to_prob (x.zip y) := by
        rw [← List.zip_swap x y]
        exact symbols_to_prob_map_of_injective Prod.swap Prod.swap_injective (x.zip y)
      rw [hz]
      congr 1
      ring

/-- C9: `combine_symbols` on `k ≥ 1` sequences of common length `N` returns
a sequence of length `N` whose element `i` is the tuple of the `i`-th
elements of the inputs. -/
theorem combine_symbols_transpose {α : Type _} [Inhabited α]
    (args : List (List α)) (N : ℕ) (hne : args ≠ []) (hlen : ∀ a ∈ args, a.length = N) :
    combine_symbols args = .ok (pyZip args)
    ∧ (pyZip args).length = N
    ∧ ∀ i, i < N → (pyZip args).getD i [] = args.map (fun a => a.getD i default) := by
  obtain ⟨a0, rest, rfl⟩ : ∃ a0 rest, args = a0 :: rest := by
    cases args with
    | nil => exact absurd rfl hne
    | cons h t => exact ⟨h, t, rfl⟩
  have ha0 : a0.length = N := hlen a0 (by simp)
  have hrest : ∀ r ∈ rest, r.length = a0.length := fun r hr => by
    rw [hlen r (List.mem_cons_of_mem _ hr), ha0]
  have hz := pyZip_eq default a0 rest hrest
  refine ⟨?_, ?_, ?_⟩
  · unfold combine_symbols
    rw [if_neg]
    simp only [List.any_eq_true, decide_eq_true_eq, not_exists]
    rintro arg ⟨hm, hne'⟩
    rcases List.mem_cons.mp hm with rfl | hm'
    · simp at hne'
    · exact hne' (by rw [hrest arg hm']; rfl)
  · rw [hz]
    simp [ha0]
  · intro i hi
    rw [hz, getD_range_map _ _ _ _ (by rw [ha0]; exact hi)]

/-- Witness for the C9 theorem: combining `[1,2]` and `[3,4]` yields the
two tuples `(1,3)` and `(2,4)`. -/
theorem combine_symbols_transpose_witness :
    combine_symbols [[1, 2], [3, 4]] = .ok [[1, 3], [2, 4]] := by
  have h := (combine_symbols_transpose ([[1, 2], [3, 4]] : List (List ℕ)) 2
    (by simp) (by decide)).1
  rw [h]
  rfl

/-- C10: supplying `prob` as an ordered numeric sequence that is not an
ndarray (a plain Python list) raises the TypeError before the sum check —
even when the entries are non-negative and sum exactly to 1. -/
theorem entropy_non_ndarray_prob_type_error (p : List ℚ) (ev : ℚ)
    (_hpos : ∀ q ∈ p, 0 ≤ q) (_hsum : p.sum = 1) :
    entropy (none : Option (List Unit)) (some ⟨false, p⟩) ev
      = .error .entropyProbNotNdarray := rfl

/-- Witness for the C10 theorem at the valid distribution `[1/2, 1/2]`. -/
theorem entropy_non_ndarray_prob_type_error_witness :
    (∀ q ∈ [(1 : ℚ)/2, 1/2], 0 ≤ q) ∧ ([(1 : ℚ)/2, 1/2].sum = 1)
    ∧ entropy (none : Option (List Unit)) (some ⟨false, [(1 : ℚ)/2, 1/2]⟩) defaultErrorVal
      = .error .entropyProbNotNdarray := by
  refine ⟨by norm_num, by norm_num,
    entropy_non_ndarray_prob_type_error [(1 : ℚ)/2, 1/2] defaultErrorVal
      (by norm_num) (by norm_num)⟩

end Shannon
